import Mathlib

/-!
Shallow embedding of the expense-tracker core from `src/ExpenseScreen.js`
(validation in `addExpense`, the time-window filter `filteredExpenses`, the
category filter `finalFiltered`, the aggregations `totalsByCategory`,
`visibleTotal`, and the legend percentage computation).

Amounts are modelled as rationals.  JavaScript `Date` values are modelled by
their calendar components (`getFullYear`, `getMonth`, `getDate`); the string
parsing done by `new Date(string)` is an external browser facility and enters
the model as an oracle `parse : String → Option CDate` (returning `none`
exactly when `isNaN(d.getTime())`).
-/

/-- Calendar date as seen through the JavaScript `Date` accessors: `year` is
`getFullYear()`, `month` is `getMonth()` (0 to 11), `day` is `getDate()`
(1-based day of month). -/
structure CDate where
  year : Int
  month : Nat
  day : Nat
deriving DecidableEq

/-- Gregorian leap-year rule. -/
def isLeap (y : Int) : Bool :=
  y % 4 == 0 && (y % 100 != 0 || y % 400 == 0)

/-- Number of days of month `m` (0 to 11, JS numbering) of year `y`. -/
def daysInMonth (y : Int) (m : Nat) : Nat :=
  if m = 1 then (if isLeap y then 29 else 28)
  else if m = 3 ∨ m = 5 ∨ m = 8 ∨ m = 10 then 30
  else 31

/-- The calendar date one day earlier. -/
def prevDay (dt : CDate) : CDate :=
  if 2 ≤ dt.day then ⟨dt.year, dt.month, dt.day - 1⟩
  else if 1 ≤ dt.month then ⟨dt.year, dt.month - 1, daysInMonth dt.year (dt.month - 1)⟩
  else ⟨dt.year - 1, 11, daysInMonth (dt.year - 1) 11⟩

/-- The calendar date `k` days earlier. -/
def subDays (dt : CDate) : Nat → CDate
  | 0 => dt
  | k + 1 => prevDay (subDays dt k)

/-- Model of `sevenDaysAgo`: a copy of `now` after
`sevenDaysAgo.setDate(now.getDate() - 6)` (src/ExpenseScreen.js:489-490).
JS `setDate` normalizes a day number below 1 by borrowing from the previous
month; for an argument of `getDate() - 6` at most one borrow can occur. -/
def setDate6Ago (dt : CDate) : CDate :=
  if 7 ≤ dt.day then ⟨dt.year, dt.month, dt.day - 6⟩
  else if 1 ≤ dt.month then ⟨dt.year, dt.month - 1, dt.day + daysInMonth dt.year (dt.month - 1) - 6⟩
  else ⟨dt.year - 1, 11, dt.day + daysInMonth (dt.year - 1) 11 - 6⟩

/-- Chronological (lexicographic) order on calendar dates.  For in-range
dates this is exactly the order of the timestamps of the local midnights
`new Date(y, m, d)` compared in the week branch of the filter. -/
def cdLEP (a b : CDate) : Prop :=
  a.year < b.year ∨
    (a.year = b.year ∧ (a.month < b.month ∨ (a.month = b.month ∧ a.day ≤ b.day)))

instance (a b : CDate) : Decidable (cdLEP a b) := by
  unfold cdLEP; exact inferInstance

/-- Strict chronological order on calendar dates. -/
def cdLTP (a b : CDate) : Prop :=
  a.year < b.year ∨
    (a.year = b.year ∧ (a.month < b.month ∨ (a.month = b.month ∧ a.day < b.day)))

instance (a b : CDate) : Decidable (cdLTP a b) := by
  unfold cdLTP; exact inferInstance

/-- A calendar date whose components are in range (as produced by the `Date`
accessors on a real instant). -/
def validDate (dt : CDate) : Prop :=
  1 ≤ dt.day ∧ dt.day ≤ daysInMonth dt.year dt.month ∧ dt.month ≤ 11

instance (dt : CDate) : Decidable (validDate dt) := by
  unfold validDate; exact inferInstance

/-- Stored expense record as the screen receives it from SQLite
(`SELECT * FROM expenses ORDER BY id DESC`).  The `amount` field holds the
result of `parseFloat(it.amount)`: `none` models a missing or non-numeric
amount (JS `NaN`), `some q` a numeric value.  `none` in a string field models
SQL `NULL`. -/
structure Expense where
  id : Int
  amount : Option ℚ
  category : Option String
  note : Option String
  date : Option String
deriving DecidableEq

/-- The three values of the time-filter state: `'all' | 'week' | 'month'`. -/
inductive TimeFilter
  | all
  | week
  | month
deriving DecidableEq

/-- Membership of one record under the time filter, following the callback of
`expenses.filter` in `filteredExpenses` (src/ExpenseScreen.js:479-501).
JS `!item.date` treats both `null` and the empty string as absent.  The week
branch compares the record's local-midnight date with `sevenDaysAgo`'s
local-midnight date, i.e. `cdLEP (setDate6Ago now) d`. -/
def timePred (parse : String → Option CDate) (flt : TimeFilter) (now : CDate)
    (item : Expense) : Bool :=
  if flt = TimeFilter.all then true
  else
    match item.date with
    | none => false
    | some s =>
      if s = "" then false
      else
        match parse s with
        | none => false
        | some d =>
          match flt with
          | TimeFilter.week => decide (cdLEP (setDate6Ago now) d)
          | TimeFilter.month => decide (d.year = now.year ∧ d.month = now.month)
          | TimeFilter.all => true

/-- Membership of one record under the category filter
(src/ExpenseScreen.js:516-518): pass everything when the filter is `'all'`,
otherwise require `it.category === categoryFilter`. -/
def catPred (categoryFilter : String) (it : Expense) : Bool :=
  if categoryFilter = "all" then true else it.category == some categoryFilter

/-- The time-filtered record list `filteredExpenses`. -/
def timeFiltered (parse : String → Option CDate) (flt : TimeFilter) (now : CDate)
    (l : List Expense) : List Expense :=
  l.filter (timePred parse flt now)

/-- The final visible record list `finalFiltered`: the category filter applied
on top of the time filter (src/ExpenseScreen.js:516-518). -/
def finalFiltered (parse : String → Option CDate) (flt : TimeFilter)
    (categoryFilter : String) (now : CDate) (l : List Expense) : List Expense :=
  (timeFiltered parse flt now l).filter (catPred categoryFilter)

/-- Amount a record contributes to a sum: `isNaN(n) ? 0 : n` after
`parseFloat(it.amount)`. -/
def amtOf (it : Expense) : ℚ :=
  match it.amount with
  | some q => q
  | none => 0

/-- Grouping key of a record: `it.category || 'Other'` (absent or empty
category falls under the literal label `"Other"`). -/
def catOf (it : Expense) : String :=
  match it.category with
  | none => "Other"
  | some c => if c = "" then "Other" else c

/-- One step of the accumulation `acc[cat] = (acc[cat] || 0) + n` on a JS
object modelled as an association list in key-insertion order: an existing
key keeps its position, a new key is appended. -/
def bump : List (String × ℚ) → String → ℚ → List (String × ℚ)
  | [], c, v => [(c, v)]
  | (k, w) :: rest, c, v =>
    if k = c then (k, w + v) :: rest else (k, w) :: bump rest c v

/-- Per-category totals (src/ExpenseScreen.js:504-509), computed over the
time-filtered set. -/
def totalsByCategory (l : List Expense) : List (String × ℚ) :=
  l.foldl (fun acc it => bump acc (catOf it) (amtOf it)) []

/-- Sum of amounts of a record list (the `reduce` of `visibleTotal`,
src/ExpenseScreen.js:521-524). -/
def visibleTotal (l : List Expense) : ℚ :=
  l.foldl (fun sum it => sum + amtOf it) 0

/-- Grand total of a category-totals mapping: sum of its values. -/
def grandTotal (totals : List (String × ℚ)) : ℚ :=
  (totals.map Prod.snd).sum

/-- Percentage share as the legend shows it
(`total ? ((value / total) * 100).toFixed(1) : '0.0'`,
src/ExpenseScreen.js:645): the numeric value of `x.toFixed(1)` is
`round (x * 10) / 10`, and a grand total of `0` is falsy in JS, giving the
share `0.0`. -/
def sharePct (t v : ℚ) : ℚ :=
  if t = 0 then 0 else ((round (v / t * 100 * 10) : ℤ) : ℚ) / 10

/-- The legend entries `pieEntries`: the totals mapping sorted by descending
value (src/ExpenseScreen.js:512). -/
def pieEntriesOf (totals : List (String × ℚ)) : List (String × ℚ) :=
  totals.mergeSort (fun a b => decide (b.2 ≤ a.2))

/-- Category shares as rendered by the legend (src/ExpenseScreen.js:643-651):
for each pie entry, the share of its value against the sum over all pie
entries. -/
def legendShares (totals : List (String × ℚ)) : List (String × ℚ) :=
  let entries := pieEntriesOf totals
  let t := (entries.map Prod.snd).sum
  entries.map (fun p => (p.1, sharePct t p.2))

/-- Per-category totals as the screen displays them: computed over the
time-filtered set only (src/ExpenseScreen.js:504). -/
def displayedTotals (parse : String → Option CDate) (flt : TimeFilter)
    (now : CDate) (l : List Expense) : List (String × ℚ) :=
  totalsByCategory (timeFiltered parse flt now l)

/-- Percentage shares as the screen displays them: the legend computation over
`displayedTotals`. -/
def displayedShares (parse : String → Option CDate) (flt : TimeFilter)
    (now : CDate) (l : List Expense) : List (String × ℚ) :=
  legendShares (displayedTotals parse flt now l)

/-- Grand total as the screen displays it: sum of amounts of the final
(time- and category-filtered) visible set (src/ExpenseScreen.js:521-524). -/
def displayedGrandTotal (parse : String → Option CDate) (flt : TimeFilter)
    (categoryFilter : String) (now : CDate) (l : List Expense) : ℚ :=
  visibleTotal (finalFiltered parse flt categoryFilter now l)

/-- Whitespace test used by the model of JS `String.prototype.trim`. -/
def isWS (c : Char) : Bool :=
  c == ' ' || c == '\t' || c == '\n' || c == '\r'

/-- Model of JS `String.prototype.trim`: drop leading and trailing
whitespace. -/
def jsTrim (s : String) : String :=
  String.mk (((s.toList.dropWhile isWS).reverse.dropWhile isWS).reverse)

/-- Decimal digit test, the `\d` of the date pattern. -/
def isDigitCh (c : Char) : Bool :=
  decide ('0' ≤ c) && decide (c ≤ '9')

/-- The anchored pattern `\d{4}-\d{2}-\d{2}` of src/ExpenseScreen.js:398. -/
def isIsoPattern (s : String) : Bool :=
  match s.toList with
  | [y1, y2, y3, y4, h1, m1, m2, h2, d1, d2] =>
    isDigitCh y1 && isDigitCh y2 && isDigitCh y3 && isDigitCh y4 &&
    h1 == '-' && isDigitCh m1 && isDigitCh m2 &&
    h2 == '-' && isDigitCh d1 && isDigitCh d2
  | _ => false

/-- Left-pad a string with zeros up to length `k`. -/
def padZeros (k : Nat) (s : String) : String :=
  String.mk (List.replicate (k - s.length) '0') ++ s

/-- Model of `parsed.toISOString().slice(0, 10)`: format the (UTC) calendar
components of a parsed date as `YYYY-MM-DD`. -/
def isoOfCDate (dt : CDate) : String :=
  padZeros 4 (toString dt.year) ++ "-" ++ padZeros 2 (toString (dt.month + 1)) ++
    "-" ++ padZeros 2 (toString dt.day)

/-- The two hard validation failures of `addExpense`
(src/ExpenseScreen.js:379-392). -/
inductive ValidationError
  | InvalidAmount
  | MissingCategory
deriving DecidableEq

/-- Validated input ready for insertion. -/
structure ExpenseInput where
  amount : ℚ
  category : String
  note : Option String
  date : Option String
deriving DecidableEq

/-- Date normalization of `addExpense` (src/ExpenseScreen.js:394-409): empty
gives `null`; a string matching `\d{4}-\d{2}-\d{2}` is kept as-is; otherwise
the string is parsed (`pd` models `new Date(date)` plus UTC component
extraction) and reformatted, and an unparseable string gives `null`. -/
def normalizeDate (pd : String → Option CDate) (date : String) : Option String :=
  if date = "" then none
  else if isIsoPattern date then some date
  else
    match pd date with
    | some p => some (isoOfCDate p)
    | none => none

/-- Validation logic of `addExpense` (src/ExpenseScreen.js:378-409) in source
order: amount first (`isNaN(amountNumber) || amountNumber <= 0`), then the
trimmed category, then date normalization; `pf` models `parseFloat`
(`none` is `NaN`), and `trimmedNote || null` sends the empty note to
absent. -/
def validate (pf : String → Option ℚ) (pd : String → Option CDate)
    (rawAmount rawCategory rawNote rawDate : String) :
    Except ValidationError ExpenseInput :=
  match pf rawAmount with
  | none => Except.error ValidationError.InvalidAmount
  | some amountNumber =>
    if amountNumber ≤ 0 then Except.error ValidationError.InvalidAmount
    else
      let trimmedCategory := jsTrim rawCategory
      let trimmedNote := jsTrim rawNote
      if trimmedCategory = "" then Except.error ValidationError.MissingCategory
      else
        Except.ok
          ⟨amountNumber, trimmedCategory,
            if trimmedNote = "" then none else some trimmedNote,
            normalizeDate pd rawDate⟩

/-- Effect of `addExpense` on the stored record list: a validation failure
returns before any SQL statement runs; otherwise an `UPDATE` (when editing)
or an `INSERT` is performed (src/ExpenseScreen.js:411-421; the reloaded list
is ordered by descending id, so a fresh record appears in front). -/
def addExpenseStore (pf : String → Option ℚ) (pd : String → Option CDate)
    (rawAmount rawCategory rawNote rawDate : String) (editingId : Option Int)
    (newId : Int) (store : List Expense) : List Expense :=
  match validate pf pd rawAmount rawCategory rawNote rawDate with
  | Except.error _ => store
  | Except.ok inp =>
    match editingId with
    | some eid =>
      store.map fun it =>
        if it.id = eid then ⟨eid, some inp.amount, some inp.category, inp.note, inp.date⟩
        else it
    | none => ⟨newId, some inp.amount, some inp.category, inp.note, inp.date⟩ :: store

/-! ### Calendar lemmas -/

/-- Every month has at least 28 days. -/
theorem le_daysInMonth (y : Int) (m : Nat) : 28 ≤ daysInMonth y m := by
  unfold daysInMonth
  split
  · split <;> omega
  · split <;> omega

/-- Going back `k` days stays inside the month while the day of month does
not drop below 1. -/
theorem subDays_within_month (k : Nat) (dt : CDate) (h : k + 1 ≤ dt.day) :
    subDays dt k = ⟨dt.year, dt.month, dt.day - k⟩ := by
  induction k with
  | zero => simp [subDays]
  | succ n ih =>
    have h1 : n + 1 ≤ dt.day := by omega
    have h2 : 2 ≤ dt.day - n := by omega
    rw [subDays, ih h1]
    simp [prevDay, h2]
    omega

/-- Peeling one day off the inside of `subDays`. -/
theorem subDays_succ_shift (dt : CDate) (k : Nat) :
    subDays dt (k + 1) = subDays (prevDay dt) k := by
  induction k with
  | zero => rfl
  | succ n ih =>
    rw [subDays, ih, subDays]

/-- Splitting `subDays` over an addition of day counts. -/
theorem subDays_add (dt : CDate) (a b : Nat) :
    subDays dt (a + b) = subDays (subDays dt a) b := by
  induction b with
  | zero => rfl
  | succ n ih => rw [show a + (n + 1) = (a + n) + 1 from rfl, subDays, ih, subDays]

/-- On an in-range calendar date, the JS normalization
`setDate(getDate() - 6)` lands exactly six calendar days earlier. -/
theorem setDate6Ago_eq_subDays (dt : CDate) (h : validDate dt) :
    setDate6Ago dt = subDays dt 6 := by
  obtain ⟨h1, h2, h3⟩ := h
  by_cases h7 : 7 ≤ dt.day
  · rw [subDays_within_month 6 dt (by omega)]
    simp [setDate6Ago, h7]
  · have e1 : subDays dt 6 = subDays (subDays dt (dt.day - 1)) (6 - (dt.day - 1)) := by
      rw [← subDays_add]
      congr 1
      omega
    have e2 : subDays dt (dt.day - 1) = ⟨dt.year, dt.month, 1⟩ := by
      rw [subDays_within_month (dt.day - 1) dt (by omega)]
      simp [CDate.mk.injEq]
      omega
    have e3 : 6 - (dt.day - 1) = (6 - dt.day) + 1 := by omega
    rw [e1, e2, e3, subDays_succ_shift]
    by_cases hm : 1 ≤ dt.month
    · have ep : prevDay ⟨dt.year, dt.month, 1⟩ =
          ⟨dt.year, dt.month - 1, daysInMonth dt.year (dt.month - 1)⟩ := by
        simp [prevDay, hm]
      have hD := le_daysInMonth dt.year (dt.month - 1)
      have e4 : subDays ⟨dt.year, dt.month - 1, daysInMonth dt.year (dt.month - 1)⟩
            (6 - dt.day) =
          ⟨dt.year, dt.month - 1, daysInMonth dt.year (dt.month - 1) - (6 - dt.day)⟩ :=
        subDays_within_month _ _ (by exact (by omega :
          (6 - dt.day) + 1 ≤ daysInMonth dt.year (dt.month - 1)))
      rw [ep, e4]
      simp [setDate6Ago, h7, hm, CDate.mk.injEq]
      omega
    · have hm0 : dt.month = 0 := by omega
      have ep : prevDay ⟨dt.year, dt.month, 1⟩ =
          ⟨dt.year - 1, 11, daysInMonth (dt.year - 1) 11⟩ := by
        simp [prevDay, hm0]
      have hD := le_daysInMonth (dt.year - 1) 11
      have e4 : subDays ⟨dt.year - 1, 11, daysInMonth (dt.year - 1) 11⟩ (6 - dt.day) =
          ⟨dt.year - 1, 11, daysInMonth (dt.year - 1) 11 - (6 - dt.day)⟩ :=
        subDays_within_month _ _ (by exact (by omega :
          (6 - dt.day) + 1 ≤ daysInMonth (dt.year - 1) 11))
      rw [ep, e4]
      simp [setDate6Ago, h7, hm0, CDate.mk.injEq]
      omega

/-! ### Chronological order lemmas -/

/-- The chronological order is reflexive. -/
theorem cdLEP_refl (a : CDate) : cdLEP a a := by
  unfold cdLEP
  omega

/-- A weak bound followed by a strict bound gives the weak bound. -/
theorem cdLEP_of_le_lt {a b c : CDate} (hab : cdLEP a b) (hbc : cdLTP b c) :
    cdLEP a c := by
  obtain ⟨ya, ma, da⟩ := a
  obtain ⟨yb, mb, db⟩ := b
  obtain ⟨yc, mc, dc⟩ := c
  unfold cdLEP cdLTP at *
  simp only at *
  omega

/-- Unfolding of the chronological order on explicit components. -/
theorem cdLEP_mk_iff {y1 y2 : Int} {m1 m2 d1 d2 : Nat} :
    cdLEP ⟨y1, m1, d1⟩ ⟨y2, m2, d2⟩ ↔
      (y1 < y2 ∨ (y1 = y2 ∧ (m1 < m2 ∨ (m1 = m2 ∧ d1 ≤ d2)))) := Iff.rfl

/-- Going back one day never moves a date forward. -/
theorem prevDay_le (dt : CDate) : cdLEP (prevDay dt) dt := by
  obtain ⟨y, m, d⟩ := dt
  by_cases h2 : 2 ≤ d
  · have hp : prevDay ⟨y, m, d⟩ = ⟨y, m, d - 1⟩ := by simp [prevDay, h2]
    rw [hp, cdLEP_mk_iff]
    omega
  · by_cases hm : 1 ≤ m
    · have hp : prevDay ⟨y, m, d⟩ = ⟨y, m - 1, daysInMonth y (m - 1)⟩ := by
        simp [prevDay, h2, hm]
      rw [hp, cdLEP_mk_iff]
      omega
    · have hp : prevDay ⟨y, m, d⟩ = ⟨y - 1, 11, daysInMonth (y - 1) 11⟩ := by
        simp [prevDay, h2, hm]
      rw [hp, cdLEP_mk_iff]
      omega

/-- The chronological order is transitive. -/
theorem cdLEP_trans {a b c : CDate} (hab : cdLEP a b) (hbc : cdLEP b c) :
    cdLEP a c := by
  obtain ⟨ya, ma, da⟩ := a
  obtain ⟨yb, mb, db⟩ := b
  obtain ⟨yc, mc, dc⟩ := c
  unfold cdLEP at *
  simp only at *
  omega

/-- Going back `k` days never moves a date forward. -/
theorem subDays_le (dt : CDate) (k : Nat) : cdLEP (subDays dt k) dt := by
  induction k with
  | zero => exact cdLEP_refl dt
  | succ n ih => exact cdLEP_trans (prevDay_le (subDays dt n)) ih

/-! ### Aggregation lemmas -/

/-- Value stored under key `c` in an association list, `0` when absent
(mirroring `acc[cat] || 0`). -/
def lookupAmt (c : String) : List (String × ℚ) → ℚ
  | [] => 0
  | (k, v) :: rest => if k = c then v else lookupAmt c rest

/-- Sum of the contributed amounts of the records of a list that group under
category label `c`. -/
def sumFor (c : String) (l : List Expense) : ℚ :=
  ((l.filter fun it => catOf it == c).map amtOf).sum

/-- A `bump` adds `v` to the value under `k` and changes no other value. -/
theorem lookupAmt_bump (acc : List (String × ℚ)) (k c : String) (v : ℚ) :
    lookupAmt c (bump acc k v) = lookupAmt c acc + (if k = c then v else 0) := by
  induction acc with
  | nil =>
    by_cases h : k = c <;> simp [bump, lookupAmt, h]
  | cons p rest ih =>
    obtain ⟨k0, w⟩ := p
    by_cases h0 : k0 = k
    · subst h0
      by_cases h : k0 = c <;> simp [bump, lookupAmt, h]
    · by_cases h : k0 = c
      · subst h
        have hk : ¬ k = k0 := fun he => h0 he.symm
        simp [bump, lookupAmt, h0, hk]
      · simp [bump, lookupAmt, h0, h, ih]

/-- Accumulating a record list onto `acc` adds each category's contribution
to the looked-up value. -/
theorem lookupAmt_foldl (c : String) (l : List Expense) :
    ∀ acc : List (String × ℚ),
      lookupAmt c (l.foldl (fun a it => bump a (catOf it) (amtOf it)) acc) =
        lookupAmt c acc + sumFor c l := by
  induction l with
  | nil => intro acc; simp [sumFor]
  | cons it rest ih =>
    intro acc
    simp only [List.foldl_cons]
    rw [ih, lookupAmt_bump]
    by_cases h : catOf it = c
    · simp [sumFor, List.filter_cons, h]
      ring
    · simp [sumFor, List.filter_cons, h]

/-- The per-category totals map each category label to the sum of the
amounts grouping under it. -/
theorem lookupAmt_totalsByCategory (c : String) (l : List Expense) :
    lookupAmt c (totalsByCategory l) = sumFor c l := by
  unfold totalsByCategory
  rw [lookupAmt_foldl]
  simp [lookupAmt]

/-- A `bump` adds the key `k` to the key set and keeps all previous keys. -/
theorem any_key_bump (acc : List (String × ℚ)) (k c : String) (v : ℚ) :
    ((bump acc k v).any fun p => p.1 == c) =
      ((acc.any fun p => p.1 == c) || (k == c)) := by
  induction acc with
  | nil => simp [bump]
  | cons p rest ih =>
    obtain ⟨k0, w⟩ := p
    by_cases h0 : k0 = k
    · subst h0
      by_cases h : k0 = c <;> simp [bump, h]
    · simp [bump, h0, ih, Bool.or_assoc]

/-- A key occurs in the accumulated totals iff it occurred before or some
record of the list groups under it. -/
theorem any_key_foldl (c : String) (l : List Expense) :
    ∀ acc : List (String × ℚ),
      ((l.foldl (fun a it => bump a (catOf it) (amtOf it)) acc).any
          fun p => p.1 == c) =
        ((acc.any fun p => p.1 == c) || l.any fun it => catOf it == c) := by
  induction l with
  | nil => intro acc; simp
  | cons it rest ih =>
    intro acc
    simp only [List.foldl_cons, List.any_cons]
    rw [ih, any_key_bump]
    by_cases h : catOf it = c <;> simp [h, Bool.or_comm, Bool.or_assoc, Bool.or_left_comm]

/-- A category label occurs in `totalsByCategory l` iff some record of `l`
groups under it. -/
theorem any_key_totalsByCategory (c : String) (l : List Expense) :
    ((totalsByCategory l).any fun p => p.1 == c) =
      (l.any fun it => catOf it == c) := by
  unfold totalsByCategory
  rw [any_key_foldl]
  simp

/-- A `bump` raises the sum of all stored values by exactly `v`. -/
theorem grandTotal_bump (acc : List (String × ℚ)) (k : String) (v : ℚ) :
    grandTotal (bump acc k v) = grandTotal acc + v := by
  induction acc with
  | nil => simp [bump, grandTotal]
  | cons p rest ih =>
    obtain ⟨k0, w⟩ := p
    by_cases h : k0 = k
    · simp [bump, h, grandTotal]
      ring
    · simp [bump, h, grandTotal] at ih ⊢
      rw [ih]
      ring

/-- Folding a record list into the totals raises the stored sum by the sum
of the contributed amounts. -/
theorem grandTotal_foldl (l : List Expense) :
    ∀ acc : List (String × ℚ),
      grandTotal (l.foldl (fun a it => bump a (catOf it) (amtOf it)) acc) =
        grandTotal acc + (l.map amtOf).sum := by
  induction l with
  | nil => intro acc; simp
  | cons it rest ih =>
    intro acc
    simp only [List.foldl_cons]
    rw [ih, grandTotal_bump]
    simp
    ring

/-- The running `reduce` of `visibleTotal` computes the plain sum of the
contributed amounts. -/
theorem visibleTotal_eq_sum (l : List Expense) :
    visibleTotal l = (l.map amtOf).sum := by
  unfold visibleTotal
  have key : ∀ (l : List Expense) (a : ℚ),
      l.foldl (fun s it => s + amtOf it) a = a + (l.map amtOf).sum := by
    intro l
    induction l with
    | nil => intro a; simp
    | cons it rest ih =>
      intro a
      simp only [List.foldl_cons, List.map_cons, List.sum_cons]
      rw [ih]
      ring
  rw [key]
  ring

/-! ### Legend lemmas -/

/-- Sorting the pie entries does not change the grand total. -/
theorem grandTotal_pieEntriesOf (totals : List (String × ℚ)) :
    ((pieEntriesOf totals).map Prod.snd).sum = grandTotal totals := by
  unfold pieEntriesOf grandTotal
  exact List.Perm.sum_eq (List.Perm.map _ (List.mergeSort_perm totals _))

/-- Sorting the pie entries does not change the entry set. -/
theorem mem_pieEntriesOf {p : String × ℚ} {totals : List (String × ℚ)} :
    p ∈ pieEntriesOf totals ↔ p ∈ totals := by
  unfold pieEntriesOf
  exact List.mem_mergeSort

/-- Every entry of the totals mapping appears in the legend with the share
computed against the grand total of the whole mapping. -/
theorem mem_legendShares_of_mem {totals : List (String × ℚ)} {p : String × ℚ}
    (hp : p ∈ totals) :
    (p.1, sharePct (grandTotal totals) p.2) ∈ legendShares totals := by
  unfold legendShares
  simp only [grandTotal_pieEntriesOf]
  exact List.mem_map_of_mem _ (mem_pieEntriesOf.mpr hp)

/-- Every legend entry is the share of some entry of the totals mapping. -/
theorem legendShares_shape {totals : List (String × ℚ)} {q : String × ℚ}
    (hq : q ∈ legendShares totals) :
    ∃ p ∈ totals, q = (p.1, sharePct (grandTotal totals) p.2) := by
  unfold legendShares at hq
  simp only [grandTotal_pieEntriesOf, List.mem_map] at hq
  obtain ⟨p, hp, he⟩ := hq
  exact ⟨p, mem_pieEntriesOf.mp hp, he.symm⟩

/-! ### Claims -/

/-- C2: under the Week window a record is included iff its date is present
(non-null, non-empty) and parseable and its calendar date (year/month/day
only) is at least `now`'s calendar date minus 6 days; strictly future dates
are included (only the lower bound is enforced); records with an absent or
unparseable date are excluded.  The hypothesis `validDate now` states that
the reference `now` has in-range calendar components, as any real instant
does. -/
theorem c2_week_window (parse : String → Option CDate) (now : CDate)
    (hnow : validDate now) (item : Expense) :
    (timePred parse TimeFilter.week now item = true ↔
      ∃ s d, item.date = some s ∧ s ≠ "" ∧ parse s = some d ∧
        cdLEP (subDays now 6) d) ∧
    (∀ s d, item.date = some s → s ≠ "" → parse s = some d → cdLTP now d →
      timePred parse TimeFilter.week now item = true) ∧
    ((item.date = none ∨ item.date = some "") →
      timePred parse TimeFilter.week now item = false) ∧
    (∀ s, item.date = some s → parse s = none →
      timePred parse TimeFilter.week now item = false) := by
  have hsub : setDate6Ago now = subDays now 6 := setDate6Ago_eq_subDays now hnow
  refine ⟨?_, ?_, ?_, ?_⟩
  · cases hd : item.date with
    | none => simp [timePred, hd]
    | some s =>
      by_cases hs : s = ""
      · subst hs
        simp [timePred, hd]
      · cases hp : parse s with
        | none => simp [timePred, hd, hs, hp]
        | some d => simp [timePred, hd, hs, hp, hsub]
  · intro s d hd hs hp hlt
    have h2 : cdLEP (subDays now 6) d := cdLEP_of_le_lt (subDays_le now 6) hlt
    simp [timePred, hd, hs, hp, hsub, h2]
  · intro h
    rcases h with h | h <;> simp [timePred, h]
  · intro s hd hp
    by_cases hs : s = ""
    · subst hs; simp [timePred, hd]
    · simp [timePred, hd, hs, hp]

/-- Witness for C2 at a concrete input: a record dated 2024-03-12 passes the
Week filter on 2024-03-15. -/
theorem c2_week_window_witness :
    timePred (fun s => if s = "2024-03-12" then some ⟨2024, 2, 12⟩ else none)
        TimeFilter.week ⟨2024, 2, 15⟩
        ⟨1, some 10, some "Food", none, some "2024-03-12"⟩ = true :=
  ((c2_week_window (fun s => if s = "2024-03-12" then some ⟨2024, 2, 12⟩ else none)
        ⟨2024, 2, 15⟩ (by decide)
        ⟨1, some 10, some "Food", none, some "2024-03-12"⟩).1).mpr
    ⟨"2024-03-12", ⟨2024, 2, 12⟩, rfl, by decide, by decide, by decide⟩

/-- C3: date normalization of validation — an empty `rawDate` gives an absent
date; a string matching `\d\x7b4\x7d-\d\x7b2\x7d-\d\x7b2\x7d` is accepted
as-is; otherwise a parseable string is reformatted to `YYYY-MM-DD` (in UTC,
via the parse oracle `pd` and the formatter `isoOfCDate`); an unparseable
string silently gives an absent date and the record is still accepted
(validation returns `ok` whenever amount and category are valid, whatever
`rawDate` is). -/
theorem c3_date_normalization (pd : String → Option CDate) (rawDate : String) :
    (rawDate = "" → normalizeDate pd rawDate = none) ∧
    (isIsoPattern rawDate = true → normalizeDate pd rawDate = some rawDate) ∧
    (rawDate ≠ "" → isIsoPattern rawDate = false →
      normalizeDate pd rawDate = (pd rawDate).map isoOfCDate) ∧
    (∀ (pf : String → Option ℚ) (rawAmount rawCategory rawNote : String) (q : ℚ),
      pf rawAmount = some q → 0 < q → jsTrim rawCategory ≠ "" →
      validate pf pd rawAmount rawCategory rawNote rawDate =
        Except.ok ⟨q, jsTrim rawCategory,
          (if jsTrim rawNote = "" then none else some (jsTrim rawNote)),
          normalizeDate pd rawDate⟩) := by
  refine ⟨?_, ?_, ?_, ?_⟩
  · intro h
    simp [normalizeDate, h]
  · intro h
    have hne : rawDate ≠ "" := by
      intro he
      rw [he] at h
      exact absurd h (by decide)
    simp [normalizeDate, hne, h]
  · intro hne hiso
    simp only [normalizeDate, hne, hiso, if_false, Bool.false_eq_true, if_neg]
    cases pd rawDate <;> simp
  · intro pf rawAmount rawCategory rawNote q hq hpos hcat
    unfold validate
    rw [hq]
    simp only [not_le.mpr hpos, if_false, hcat, if_neg]

/-- Witness for C3 at the spec's example: `validate("12.5", "Food", "",
"not-a-date")` is accepted with an absent date and no error. -/
theorem c3_date_normalization_witness :
    validate (fun s => if s = "12.5" then some ((25 : ℚ) / 2) else none) (fun _ => none)
        "12.5" "Food" "" "not-a-date" =
      Except.ok ⟨(25 : ℚ) / 2, "Food", none, none⟩ := by
  have h := (c3_date_normalization (fun _ => none) "not-a-date").2.2.2
      (fun s => if s = "12.5" then some ((25 : ℚ) / 2) else none)
      "12.5" "Food" "" ((25 : ℚ) / 2) rfl (by norm_num) (by decide)
  rw [h]
  norm_num +decide [jsTrim, isWS, normalizeDate, isIsoPattern]

/-- C4: a non-numeric amount (`parseFloat` gives `NaN`) or an amount parsing
to a value at most 0 makes validation fail with `InvalidAmount`, and the
rejection leaves the stored record list unchanged — no record is inserted or
updated, in both the adding and the editing path. -/
theorem c4_invalid_amount_rejects (pf : String → Option ℚ) (pd : String → Option CDate)
    (rawAmount rawCategory rawNote rawDate : String) (editingId : Option Int)
    (newId : Int) (store : List Expense)
    (h : pf rawAmount = none ∨ ∃ q, pf rawAmount = some q ∧ q ≤ 0) :
    validate pf pd rawAmount rawCategory rawNote rawDate =
      Except.error ValidationError.InvalidAmount ∧
    addExpenseStore pf pd rawAmount rawCategory rawNote rawDate editingId newId store =
      store := by
  have hv : validate pf pd rawAmount rawCategory rawNote rawDate =
      Except.error ValidationError.InvalidAmount := by
    rcases h with h | ⟨q, hq, hle⟩
    · simp [validate, h]
    · simp [validate, hq, hle]
  exact ⟨hv, by simp [addExpenseStore, hv]⟩

/-- Witness for C4 at a concrete input: a non-numeric amount string is
rejected and the store is unchanged. -/
theorem c4_invalid_amount_rejects_witness :
    validate (fun _ => none) (fun _ => none) "abc" "Food" "" "" =
        Except.error ValidationError.InvalidAmount ∧
      addExpenseStore (fun _ => none) (fun _ => none) "abc" "Food" "" "" none 1 [] = [] :=
  c4_invalid_amount_rejects (fun _ => none) (fun _ => none) "abc" "Food" "" "" none 1 []
    (Or.inl rfl)

/-- C5: each category's percentage share is `100 * categoryTotal / grandTotal`
rounded to one decimal place, a grand total of 0 makes every share 0 (the
computation is total, never a division-by-zero failure), and the totals
Food=15, Rent=5 yield the shares Food=75.0, Rent=25.0. -/
theorem c5_percentage_shares :
    (∀ (totals : List (String × ℚ)) (p : String × ℚ), p ∈ totals →
      (p.1, sharePct (grandTotal totals) p.2) ∈ legendShares totals) ∧
    (∀ totals : List (String × ℚ), grandTotal totals = 0 →
      ∀ q ∈ legendShares totals, q.2 = 0) ∧
    (∀ t v : ℚ, t ≠ 0 → sharePct t v = ((round (100 * v / t * 10) : ℤ) : ℚ) / 10) ∧
    legendShares [("Food", 15), ("Rent", 5)] = [("Food", 75), ("Rent", 25)] := by
  refine ⟨?_, ?_, ?_, ?_⟩
  · intro totals p hp
    exact mem_legendShares_of_mem hp
  · intro totals h0 q hq
    obtain ⟨p, hp, rfl⟩ := legendShares_shape hq
    simp [sharePct, h0]
  · intro t v ht
    have : v / t * 100 = 100 * v / t := by ring
    simp [sharePct, ht, this]
  · norm_num +decide [legendShares, pieEntriesOf, sharePct, List.mergeSort]

/-- Witness for C5 at a concrete input: the Food entry of the totals
Food=15, Rent=5 appears in the legend with its share. -/
theorem c5_percentage_shares_witness :
    ("Food", sharePct (grandTotal [("Food", (15 : ℚ)), ("Rent", 5)]) 15) ∈
      legendShares [("Food", (15 : ℚ)), ("Rent", 5)] :=
  c5_percentage_shares.1 [("Food", 15), ("Rent", 5)] ("Food", 15)
    (List.mem_cons_self _ _)

/-- C6: `totalsByCategory` maps each occurring category label to the sum of
the amounts of the records grouping under it, records with an absent or
empty category group under the literal label `"Other"`, and the spec's
example evaluates to exactly the stated mapping. -/
theorem c6_totals_by_category :
    (∀ (l : List Expense) (c : String),
      lookupAmt c (totalsByCategory l) = sumFor c l) ∧
    (∀ (l : List Expense) (c : String),
      ((totalsByCategory l).any fun p => p.1 == c) =
        (l.any fun it => catOf it == c)) ∧
    (∀ (i : Int) (a : Option ℚ) (n d : Option String),
      catOf ⟨i, a, none, n, d⟩ = "Other" ∧ catOf ⟨i, a, some "", n, d⟩ = "Other") ∧
    totalsByCategory
      [⟨1, some 10, some "Food", none, none⟩, ⟨2, some 5, some "Food", none, none⟩,
        ⟨3, some 3, some "Rent", none, none⟩] = [("Food", 15), ("Rent", 3)] := by
  refine ⟨?_, ?_, ?_, ?_⟩
  · intro l c
    exact lookupAmt_totalsByCategory c l
  · intro l c
    exact any_key_totalsByCategory c l
  · intro i a n d
    exact ⟨rfl, rfl⟩
  · norm_num +decide [totalsByCategory, bump, amtOf, catOf]

/-- C7: the visible total is the plain sum of the records' contributed
amounts, a missing (or non-numeric, `parseFloat`-NaN) amount contributes 0,
the computation is a total function (never raises), and the total of the
empty list is 0. -/
theorem c7_total_defensive :
    (∀ l : List Expense, visibleTotal l = (l.map amtOf).sum) ∧
    (∀ (i : Int) (c n d : Option String), amtOf ⟨i, none, c, n, d⟩ = 0) ∧
    visibleTotal [] = 0 := by
  refine ⟨visibleTotal_eq_sum, ?_, rfl⟩
  intro i c n d
  rfl

/-- C8: applying the Week time filter and then the category filter gives the
same record sequence as applying the category filter first and then the Week
time filter — the two filters commute. -/
theorem c8_filters_commute (parse : String → Option CDate) (categoryFilter : String)
    (now : CDate) (l : List Expense) :
    (l.filter (timePred parse TimeFilter.week now)).filter (catPred categoryFilter) =
      (l.filter (catPred categoryFilter)).filter (timePred parse TimeFilter.week now) := by
  simp only [List.filter_filter]
  congr 1
  funext it
  rw [Bool.and_comm]

/-- C9: the sum of the values of `totalsByCategory l` equals `visibleTotal l`
on the same record list — the grand total decomposes exactly into the
per-category totals, with the same coercion of missing amounts to 0 on both
sides. -/
theorem c9_totals_decompose (l : List Expense) :
    grandTotal (totalsByCategory l) = visibleTotal l := by
  unfold totalsByCategory
  rw [grandTotal_foldl, visibleTotal_eq_sum]
  simp [grandTotal]

/-- C10: the filter pipeline's output is a subsequence of its input for every
time window, category filter and reference now: records are unmodified, keep
their relative order and multiplicities, and none is created. -/
theorem c10_pipeline_sublist (parse : String → Option CDate) (flt : TimeFilter)
    (categoryFilter : String) (now : CDate) (l : List Expense) :
    List.Sublist (finalFiltered parse flt categoryFilter now l) l :=
  List.Sublist.trans (List.filter_sublist _) (List.filter_sublist _)

/-- C1 counterexample: with time window All, category filter "Food" and the
records Food=10, Rent=3, the per-category totals the screen displays (over
the time-filtered set) differ from the totals over the final visible subset —
so totals/shares are NOT computed over the same input subset as the displayed
grand total. -/
theorem c1_counterexample :
    displayedTotals (fun _ => none) TimeFilter.all ⟨2024, 0, 1⟩
        [⟨1, some 10, some "Food", none, none⟩, ⟨2, some 3, some "Rent", none, none⟩] ≠
      totalsByCategory
        (finalFiltered (fun _ => none) TimeFilter.all "Food" ⟨2024, 0, 1⟩
          [⟨1, some 10, some "Food", none, none⟩, ⟨2, some 3, some "Rent", none, none⟩]) := by
  decide

/-- C1 amended: the per-category totals and the percentage shares the screen
displays are computed over the time-filtered subset only (before the category
filter), while the displayed grand total is computed over the final visible
subset (time window + category filter); when the category filter is `"all"`
the two subsets coincide, and only then are all three computed over the same
input subset. -/
theorem c1_amended (parse : String → Option CDate) (flt : TimeFilter)
    (categoryFilter : String) (now : CDate) (l : List Expense) :
    displayedTotals parse flt now l = totalsByCategory (timeFiltered parse flt now l) ∧
    displayedShares parse flt now l =
      legendShares (totalsByCategory (timeFiltered parse flt now l)) ∧
    displayedGrandTotal parse flt categoryFilter now l =
      visibleTotal (finalFiltered parse flt categoryFilter now l) ∧
    totalsByCategory (finalFiltered parse flt "all" now l) =
      displayedTotals parse flt now l := by
  refine ⟨rfl, rfl, rfl, ?_⟩
  have h : finalFiltered parse flt "all" now l = timeFiltered parse flt now l := by
    unfold finalFiltered
    have : catPred "all" = fun _ => true := by
      funext it
      simp [catPred]
    rw [this, List.filter_true]
  rw [h]
  rfl
